import Mathlib

/-!
# Shallow embedding of the `order` package

This file embeds the Go package `business/data/order` (file `order.go`) in
Lean 4 and proves the testable properties of its specification.

The package converts a caller-supplied ordering directive string of the form
`"field,direction"` into a validated `By` value (a pair of a whitelisted
`Field` and a `Direction`), and renders that value into a SQL ordering
fragment.

Modelling choices:
* Go strings are modelled by Lean `String` (logically a list of characters);
  `strings.Split(v, ",")` is modelled by `splitOnComma`, and
  `strings.Trim(s, " ")` — which trims only the space character `' '` from
  both ends — by `trimSpaces`.
* Go maps from strings are modelled by functions `String → Option Field`;
  the map literal of direction names is modelled by an association list.
* Functions returning `(T, error)` are modelled as returning `T × Option E`:
  the Go convention `err == nil` becomes the second component being `none`.
* `Parse` in the source reads the directive from the `orderBy` query
  parameter of an `*http.Request`; the transport is out of scope, so the
  embedded `Parse` takes that extracted string directly.
-/

namespace Order

/-- Character-level split on `','`, mirroring Go `strings.Split(v, ",")`
restricted to the single-character separator used by the source: the result
always has one more entry than the number of commas, and `splitComma [] = [[]]`
just as `strings.Split("", ",") = [""]`. -/
def splitComma : List Char → List (List Char)
  | [] => [[]]
  | c :: rest =>
    if c = ',' then [] :: splitComma rest
    else
      match splitComma rest with
      | [] => [[c]]
      | h :: t => (c :: h) :: t

/-- Split a string on commas, Go's `strings.Split(v, ",")`. -/
def splitOnComma (s : String) : List String :=
  (splitComma s.data).map (fun l => ⟨l⟩)

/-- Trim the space character from both ends of a character list. -/
def trimList (l : List Char) : List Char :=
  ((l.dropWhile (· = ' ')).reverse.dropWhile (· = ' ')).reverse

/-- Go's `strings.Trim(s, " ")`: remove leading and trailing `' '`
characters (only the space character, not other whitespace). -/
def trimSpaces (s : String) : String :=
  ⟨trimList s.data⟩

/-- `Direction` defines an order direction (source: `type Direction struct`). -/
structure Direction where
  name : String
deriving DecidableEq

/-- The `ASC` direction constant. -/
def ASC : Direction := ⟨"ASC"⟩

/-- The `DESC` direction constant. -/
def DESC : Direction := ⟨"DESC"⟩

/-- The set of known directions, the source's
`directions = map[string]Direction{ASC.name: ASC, DESC.name: DESC}`. -/
def directions : List (String × Direction) :=
  [(ASC.name, ASC), (DESC.name, DESC)]

/-- `parseDirection` converts a string to a `Direction`; `none` models the
`"invalid direction"` error of the source. -/
def parseDirection (value : String) : Option Direction :=
  directions.lookup value

/-- `Field` represents a field of the database being managed: a caller-facing
`name` and an underlying `storage` identifier. -/
structure Field where
  name : String
  storage : String
deriving DecidableEq

/-- `NewField` constructs a new field for the system (storage not yet set). -/
def NewField (name : String) : Field :=
  ⟨name, ""⟩

/-- `AddStorageField` sets the storage identifier on a field and returns the
updated value. -/
def Field.AddStorageField (f : Field) (name : String) : Field :=
  { f with storage := name }

/-- `FieldSet` maintains a set of fields that belong to an entity, modelled as
the lookup function of the Go map `map[string]Field`. -/
structure FieldSet where
  fields : String → Option Field

/-- One iteration of the `NewFieldSet` loop: the Go map assignment
`m[field.name] = field`, overwriting any earlier binding of the same name. -/
def mapInsert (m : String → Option Field) (f : Field) : String → Option Field :=
  fun k => if k = f.name then some f else m k

/-- `NewFieldSet` builds the whitelist from a list of fields by inserting each
in order into an initially empty map. -/
def NewFieldSet (fieldList : List Field) : FieldSet :=
  ⟨fieldList.foldl mapInsert (fun _ => none)⟩

/-- `parseField` validates that a field name belongs to the set and returns
the field; `none` models the `"field %q not found"` error of the source. -/
def FieldSet.parseField (fs : FieldSet) (fieldName : String) : Option Field :=
  fs.fields fieldName

/-- `By` represents a field used to order by and a direction. -/
structure By where
  field : Field
  direction : Direction
deriving DecidableEq

/-- `NewBy` constructs a new `By` value with no checks. -/
def NewBy (field : Field) (direction : Direction) : By :=
  ⟨field, direction⟩

/-- The zero value `By{}` of Go: empty field names and empty direction name,
returned by `Parse` alongside every error. -/
def zeroBy : By :=
  ⟨⟨"", ""⟩, ⟨""⟩⟩

/-- `Clause` returns a SQL string with the ordering information; the source
always returns a `nil` error, modelled by the constant `none` component. -/
def By.Clause (b : By) : String × Option String :=
  (b.field.storage ++ " " ++ b.direction.name, none)

/-- Modelled from the spec: the structured validation error built by
`validate.NewFieldsError` (package `business/sys/validate`, not part of the
sources at hand). Per the spec it exposes the offending raw input string and
a short machine-readable reason string. -/
structure FieldsError where
  fieldValue : String
  err : String
deriving DecidableEq

/-- Modelled from the spec: `validate.NewFieldsError(field, err)` packages the
offending raw string together with the reason. -/
def NewFieldsError (fieldValue : String) (err : String) : FieldsError :=
  ⟨fieldValue, err⟩

/-- `Parse` constructs an `order.By` value by parsing a string in the form
`"field,direction"`; `v` is the value of the `orderBy` query parameter
extracted from the request. Mirrors the source line by line: empty input
returns the default; otherwise split on commas, and handle the one-part,
two-parts and catch-all cases, each error carrying the original raw `v`. -/
def Parse (v : String) (orderingFields : FieldSet) (defaultOrder : By) :
    By × Option FieldsError :=
  if v = "" then
    (defaultOrder, none)
  else
    match splitOnComma v with
    | [p] =>
      match orderingFields.parseField (trimSpaces p) with
      | none => (zeroBy, some (NewFieldsError v "parsing fields"))
      | some f => (NewBy f ASC, none)
    | [p, q] =>
      match orderingFields.parseField (trimSpaces p) with
      | none => (zeroBy, some (NewFieldsError v "parsing fields"))
      | some f =>
        match parseDirection (trimSpaces q) with
        | none => (zeroBy, some (NewFieldsError v "parsing direction"))
        | some dir => (NewBy f dir, none)
    | _ => (zeroBy, some (NewFieldsError v "unknown order field"))

/-! ## Basic lemmas about the comma split and trimming -/

theorem splitComma_ne_nil (l : List Char) : splitComma l ≠ [] := by
  induction l with
  | nil => simp [splitComma]
  | cons c t ih =>
    simp only [splitComma]
    split
    · simp
    · split
      · simp
      · simp

theorem splitComma_of_not_mem {l : List Char} (h : ',' ∉ l) : splitComma l = [l] := by
  induction l with
  | nil => rfl
  | cons c t ih =>
    simp only [List.mem_cons, not_or] at h
    have hc : ¬ c = ',' := fun e => h.1 e.symm
    simp only [splitComma, if_neg hc, ih h.2]

theorem splitComma_append {p : List Char} (q : List Char) (h : ',' ∉ p) :
    splitComma (p ++ ',' :: q) = p :: splitComma q := by
  induction p with
  | nil => simp [splitComma]
  | cons c t ih =>
    simp only [List.mem_cons, not_or] at h
    have hc : ¬ c = ',' := fun e => h.1 e.symm
    simp only [List.cons_append, splitComma, if_neg hc, List.append_eq, ih h.2]

theorem length_splitComma (l : List Char) : (splitComma l).length = l.count ',' + 1 := by
  induction l with
  | nil => rfl
  | cons c t ih =>
    by_cases hc : c = ','
    · subst hc
      simp [splitComma, List.count_cons, ih]
    · cases hr : splitComma t with
      | nil => exact absurd hr (splitComma_ne_nil t)
      | cons a b =>
        rw [hr] at ih
        simp only [splitComma, if_neg hc, hr, List.length_cons, List.count_cons]
        simp only [List.length_cons] at ih
        simp [hc, ih]

theorem string_mk_data (s : String) : (⟨s.data⟩ : String) = s := by
  cases s
  rfl

theorem splitOnComma_ne_nil (s : String) : splitOnComma s ≠ [] := by
  intro h
  simp only [splitOnComma] at h
  exact splitComma_ne_nil s.data (by simpa using h)

theorem splitOnComma_of_not_mem {s : String} (h : ',' ∉ s.data) : splitOnComma s = [s] := by
  simp only [splitOnComma, splitComma_of_not_mem h, List.map_cons, List.map_nil, string_mk_data]

theorem splitOnComma_concat {p tok : String} (hp : ',' ∉ p.data) (ht : ',' ∉ tok.data) :
    splitOnComma (p ++ "," ++ tok) = [p, tok] := by
  have hdata : (p ++ "," ++ tok).data = p.data ++ ',' :: tok.data := by
    simp [String.data_append]
  simp only [splitOnComma, hdata, splitComma_append _ hp, splitComma_of_not_mem ht,
    List.map_cons, List.map_nil, string_mk_data]

/-! ## Branch lemmas for `Parse`

One lemma per control path of the source's `switch` statement. -/

theorem Parse_one_some {v p : String} {fs : FieldSet} {d : By} {f : Field}
    (hv : v ≠ "") (hs : splitOnComma v = [p]) (hf : fs.parseField (trimSpaces p) = some f) :
    Parse v fs d = (NewBy f ASC, none) := by
  unfold Parse
  rw [if_neg hv, hs]
  simp only [hf]

theorem Parse_one_none {v p : String} {fs : FieldSet} {d : By}
    (hv : v ≠ "") (hs : splitOnComma v = [p]) (hf : fs.parseField (trimSpaces p) = none) :
    Parse v fs d = (zeroBy, some (NewFieldsError v "parsing fields")) := by
  unfold Parse
  rw [if_neg hv, hs]
  simp only [hf]

theorem Parse_two_field_none {v p q : String} {fs : FieldSet} {d : By}
    (hv : v ≠ "") (hs : splitOnComma v = [p, q]) (hf : fs.parseField (trimSpaces p) = none) :
    Parse v fs d = (zeroBy, some (NewFieldsError v "parsing fields")) := by
  unfold Parse
  rw [if_neg hv, hs]
  simp only [hf]

theorem Parse_two_dir_none {v p q : String} {fs : FieldSet} {d : By} {f : Field}
    (hv : v ≠ "") (hs : splitOnComma v = [p, q]) (hf : fs.parseField (trimSpaces p) = some f)
    (hq : parseDirection (trimSpaces q) = none) :
    Parse v fs d = (zeroBy, some (NewFieldsError v "parsing direction")) := by
  unfold Parse
  rw [if_neg hv, hs]
  simp only [hf, hq]

theorem Parse_two_some {v p q : String} {fs : FieldSet} {d : By} {f : Field} {dir : Direction}
    (hv : v ≠ "") (hs : splitOnComma v = [p, q]) (hf : fs.parseField (trimSpaces p) = some f)
    (hq : parseDirection (trimSpaces q) = some dir) :
    Parse v fs d = (NewBy f dir, none) := by
  unfold Parse
  rw [if_neg hv, hs]
  simp only [hf, hq]

theorem Parse_many {v p q r : String} {rest : List String} {fs : FieldSet} {d : By}
    (hv : v ≠ "") (hs : splitOnComma v = p :: q :: r :: rest) :
    Parse v fs d = (zeroBy, some (NewFieldsError v "unknown order field")) := by
  unfold Parse
  rw [if_neg hv, hs]

theorem parseDirection_eq_none {value : String} (h1 : value ≠ "ASC") (h2 : value ≠ "DESC") :
    parseDirection value = none := by
  have b1 : (value == "ASC") = false := by simp [h1]
  have b2 : (value == "DESC") = false := by simp [h2]
  simp [parseDirection, directions, List.lookup, ASC, DESC, b1, b2]

/-- Fully characterises the map built by the `NewFieldSet` loop: a key is bound
to the last inserted field of that name, and otherwise to the initial map's
binding. -/
theorem foldl_mapInsert (l : List Field) (m : String → Option Field) (k : String) :
    (l.foldl mapInsert m) k = (l.reverse.find? (fun f => f.name == k)).or (m k) := by
  induction l generalizing m with
  | nil => rfl
  | cons a t ih =>
    simp only [List.foldl_cons, List.reverse_cons, ih, List.find?_append]
    rw [Option.or_assoc]
    congr 1
    by_cases hk : k = a.name
    · rw [hk]
      simp [mapInsert]
    · have hb : (a.name == k) = false := by
        simp
        exact fun e => hk e.symm
      simp [mapInsert, hk, hb]

/-! ## The claims -/

/-- Claim C1, counterexample: the round-trip property fails as universally
stated. The field with public name `"a,b"` is present in the FieldSet, yet
parsing `"a,b" ++ "," ++ ASC.name` does not succeed with that field: the comma
inside the public name makes the split yield three parts, so `Parse` fails
with `"unknown order field"`. -/
theorem parse_clause_roundtrip_cex :
    ((NewFieldSet [⟨"a,b", "s"⟩]).parseField "a,b" = some ⟨"a,b", "s"⟩) ∧
    (Parse ("a,b" ++ "," ++ ASC.name) (NewFieldSet [⟨"a,b", "s"⟩]) zeroBy
      = (zeroBy, some (NewFieldsError "a,b,ASC" "unknown order field"))) ∧
    (Parse ("a,b" ++ "," ++ ASC.name) (NewFieldSet [⟨"a,b", "s"⟩]) zeroBy
      ≠ (NewBy ⟨"a,b", "s"⟩ ASC, none)) := by
  refine ⟨by decide, by decide, by decide⟩

/-- Claim C1, amended: for every FieldSet, every Field present in it under a
public name `p` that contains no comma and carries no leading or trailing
space characters, and every Direction `d` in the closed set `{ASC, DESC}`,
parsing the directive `p ++ "," ++ d.name` succeeds with `By f d`, and
rendering that value via `Clause` yields exactly the storage name, a space,
and the direction's canonical token. -/
theorem parse_clause_roundtrip (fs : FieldSet) (defaultOrder : By) (p : String) (f : Field)
    (d : Direction) (hp : fs.parseField p = some f) (hnc : ',' ∉ p.data)
    (ht : trimSpaces p = p) (hd : d = ASC ∨ d = DESC) :
    Parse (p ++ "," ++ d.name) fs defaultOrder = (NewBy f d, none) ∧
    (NewBy f d).Clause = (f.storage ++ " " ++ d.name, none) := by
  have hdc : ',' ∉ d.name.data := by
    rcases hd with rfl | rfl <;> decide
  have hs : splitOnComma (p ++ "," ++ d.name) = [p, d.name] := splitOnComma_concat hnc hdc
  have hv : (p ++ "," ++ d.name) ≠ "" := by
    intro h
    have h0 := congrArg String.data h
    simp [String.data_append] at h0
  have htd : trimSpaces d.name = d.name := by
    rcases hd with rfl | rfl <;> decide
  have hdir : parseDirection (trimSpaces d.name) = some d := by
    rw [htd]
    rcases hd with rfl | rfl <;> rfl
  refine ⟨?_, rfl⟩
  refine Parse_two_some hv hs ?_ hdir
  rw [ht]
  exact hp

/-- Claim C1, witness: the amended round-trip at the concrete FieldSet
`{"name" ↦ ⟨"name", "st"⟩}` and direction `DESC`. -/
theorem parse_clause_roundtrip_witness :
    Parse ("name" ++ "," ++ DESC.name) (NewFieldSet [⟨"name", "st"⟩]) zeroBy
        = (NewBy ⟨"name", "st"⟩ DESC, none) ∧
      (NewBy ⟨"name", "st"⟩ DESC).Clause = ("st" ++ " " ++ DESC.name, none) :=
  parse_clause_roundtrip (NewFieldSet [⟨"name", "st"⟩]) zeroBy "name" ⟨"name", "st"⟩ DESC
    (by decide) (by decide) (by decide) (Or.inr rfl)

/-- Claim C2: rendering an OrderBy via `Clause` never fails and produces the
string `storage ++ " " ++ direction token`; the output is built only from the
storage identifier and the direction token, so it does not depend on the
caller-facing public name: two fields differing only in their public name
render identically. -/
theorem clause_never_fails_uses_storage :
    (∀ b : By, b.Clause = (b.field.storage ++ " " ++ b.direction.name, none)) ∧
    (∀ n₁ n₂ st : String, ∀ d : Direction,
      (NewBy ⟨n₁, st⟩ d).Clause = (NewBy ⟨n₂, st⟩ d).Clause) :=
  ⟨fun _ => rfl, fun _ _ _ _ => rfl⟩

/-- Claim C3: for every FieldSet and every default OrderBy — validated or not —
parsing the empty directive returns the default unchanged with no error; no
lookup or validation is performed on it. -/
theorem parse_empty_returns_default (fs : FieldSet) (defaultOrder : By) :
    Parse "" fs defaultOrder = (defaultOrder, none) := by
  simp [Parse]

/-- Claim C4, counterexample: a two-token directive whose trimmed second token
is not `"ASC"` or `"DESC"` need not fail with reason `"parsing direction"`:
when the first token is not a known field either, the field check runs first
and `Parse` fails with reason `"parsing fields"` instead. -/
theorem parse_direction_error_cex :
    (splitOnComma "a,desc" = ["a", "desc"]) ∧
    (trimSpaces "desc" ≠ "ASC" ∧ trimSpaces "desc" ≠ "DESC") ∧
    (Parse "a,desc" (NewFieldSet []) zeroBy
      = (zeroBy, some (NewFieldsError "a,desc" "parsing fields"))) ∧
    (Parse "a,desc" (NewFieldSet []) zeroBy
      ≠ (zeroBy, some (NewFieldsError "a,desc" "parsing direction"))) := by
  refine ⟨by decide, ⟨by decide, by decide⟩, by decide, by decide⟩

/-- Claim C4, amended: for every two-token directive whose trimmed first token
is a public name present in the FieldSet and whose trimmed second token is not
exactly `"ASC"` or `"DESC"` (matching is case-sensitive, so e.g. `"desc"` is
not recognized), `Parse` fails with an error carrying the original raw string
and the reason `"parsing direction"`. -/
theorem parse_direction_error (fs : FieldSet) (defaultOrder : By) (v p q : String) (f : Field)
    (hs : splitOnComma v = [p, q])
    (hf : fs.parseField (trimSpaces p) = some f)
    (h1 : trimSpaces q ≠ "ASC") (h2 : trimSpaces q ≠ "DESC") :
    Parse v fs defaultOrder = (zeroBy, some (NewFieldsError v "parsing direction")) := by
  have hv : v ≠ "" := by
    intro h
    rw [h] at hs
    have h0 : splitOnComma "" = [""] := rfl
    rw [h0] at hs
    exact absurd hs (by simp)
  exact Parse_two_dir_none hv hs hf (parseDirection_eq_none h1 h2)

/-- Claim C4, witness: `"name,desc"` against the FieldSet containing `"name"`
fails with reason `"parsing direction"`. -/
theorem parse_direction_error_witness :
    Parse "name,desc" (NewFieldSet [⟨"name", "st"⟩]) zeroBy
      = (zeroBy, some (NewFieldsError "name,desc" "parsing direction")) :=
  parse_direction_error (NewFieldSet [⟨"name", "st"⟩]) zeroBy "name,desc" "name" "desc"
    ⟨"name", "st"⟩ (by decide) (by decide) (by decide) (by decide)

/-- Claim C5: for every non-empty directive that splits into one or two tokens,
if the trimmed field token is not a public name present in the FieldSet then
`Parse` fails with an error carrying the original raw string and the reason
`"parsing fields"` — in both the one-token and the two-token case. -/
theorem parse_unknown_field_error (fs : FieldSet) (defaultOrder : By) (v t : String)
    (rest : List String) (hv : v ≠ "") (hs : splitOnComma v = t :: rest)
    (hlen : rest.length ≤ 1) (hf : fs.parseField (trimSpaces t) = none) :
    Parse v fs defaultOrder = (zeroBy, some (NewFieldsError v "parsing fields")) := by
  rcases rest with _ | ⟨q, rest'⟩
  · exact Parse_one_none hv hs hf
  · rcases rest' with _ | ⟨r, rest''⟩
    · exact Parse_two_field_none hv hs hf
    · simp only [List.length_cons] at hlen
      omega

/-- Claim C5, witness: the single-token directive `"bogus"` against the empty
FieldSet fails with reason `"parsing fields"`. -/
theorem parse_unknown_field_error_witness :
    Parse "bogus" (NewFieldSet []) zeroBy
      = (zeroBy, some (NewFieldsError "bogus" "parsing fields")) :=
  parse_unknown_field_error (NewFieldSet []) zeroBy "bogus" "bogus" []
    (by decide) (by decide) (by decide) (by decide)

/-- Claim C6: for every directive containing more than one comma — so the
split yields more than two segments, and the directive is necessarily
non-empty — `Parse` fails with an error carrying the original raw string and
the reason `"unknown order field"`. -/
theorem parse_extra_commas_error (fs : FieldSet) (defaultOrder : By) (v : String)
    (h : 1 < v.data.count ',') :
    Parse v fs defaultOrder = (zeroBy, some (NewFieldsError v "unknown order field")) := by
  have hv : v ≠ "" := by
    intro e
    rw [e] at h
    simp at h
  have hlen : 2 < (splitComma v.data).length := by
    rw [length_splitComma]
    omega
  rcases hsp : splitComma v.data with _ | ⟨a, tl⟩
  · exact absurd hsp (splitComma_ne_nil _)
  rcases tl with _ | ⟨b, tl2⟩
  · rw [hsp] at hlen
    simp at hlen
  rcases tl2 with _ | ⟨c, tl3⟩
  · rw [hsp] at hlen
    simp at hlen
  have hs : splitOnComma v
      = (⟨a⟩ : String) :: (⟨b⟩ : String) :: (⟨c⟩ : String) :: tl3.map (fun l => ⟨l⟩) := by
    simp [splitOnComma, hsp]
  exact Parse_many hv hs

/-- Claim C6, witness: `"a,b,c"` fails with reason `"unknown order field"`. -/
theorem parse_extra_commas_error_witness :
    Parse "a,b,c" (NewFieldSet []) zeroBy
      = (zeroBy, some (NewFieldsError "a,b,c" "unknown order field")) :=
  parse_extra_commas_error (NewFieldSet []) zeroBy "a,b,c" (by decide)

/-- Claim C7, counterexample: parsing is not insensitive to surrounding
whitespace in general. First, only the space character is trimmed: with the
tab-carrying directive `"x\t,ASC"` the field lookup fails while the
whitespace-free `"x,ASC"` succeeds. Second, even for spaces the failing
results are not the same error: the error carries the original raw string,
so `" a "` and `"a"` produce different errors. -/
theorem parse_whitespace_cex :
    (Parse "x\t,ASC" (NewFieldSet [⟨"x", "s"⟩]) zeroBy
        = (zeroBy, some (NewFieldsError "x\t,ASC" "parsing fields")) ∧
      Parse "x,ASC" (NewFieldSet [⟨"x", "s"⟩]) zeroBy = (NewBy ⟨"x", "s"⟩ ASC, none)) ∧
    (Parse " a " (NewFieldSet []) zeroBy
        = (zeroBy, some (NewFieldsError " a " "parsing fields")) ∧
      Parse "a" (NewFieldSet []) zeroBy
        = (zeroBy, some (NewFieldsError "a" "parsing fields")) ∧
      NewFieldsError " a " "parsing fields" ≠ NewFieldsError "a" "parsing fields") := by
  refine ⟨⟨by decide, by decide⟩, by decide, by decide, by decide⟩

/-- Claim C7, amended: parsing is insensitive to surrounding space characters
(the characters Go's `strings.Trim(s, " ")` removes) on each comma-separated
token, up to the raw string carried inside errors: two non-empty directives
whose token lists agree after trimming spaces parse to the same OrderBy and,
on failure, to errors with the same reason. -/
theorem parse_space_insensitive (fs : FieldSet) (defaultOrder : By) (v₁ v₂ : String)
    (h₁ : v₁ ≠ "") (h₂ : v₂ ≠ "")
    (h : (splitOnComma v₁).map trimSpaces = (splitOnComma v₂).map trimSpaces) :
    (Parse v₁ fs defaultOrder).1 = (Parse v₂ fs defaultOrder).1 ∧
    Option.map FieldsError.err (Parse v₁ fs defaultOrder).2
      = Option.map FieldsError.err (Parse v₂ fs defaultOrder).2 := by
  have hlen : (splitOnComma v₁).length = (splitOnComma v₂).length := by
    have hc := congrArg List.length h
    simpa using hc
  rcases hs₁ : splitOnComma v₁ with _ | ⟨p₁, r₁⟩
  · exact absurd hs₁ (splitOnComma_ne_nil v₁)
  rcases hs₂ : splitOnComma v₂ with _ | ⟨p₂, r₂⟩
  · exact absurd hs₂ (splitOnComma_ne_nil v₂)
  rw [hs₁, hs₂] at h hlen
  simp only [List.map_cons, List.cons.injEq] at h
  obtain ⟨hp, h⟩ := h
  simp only [List.length_cons] at hlen
  rcases r₁ with _ | ⟨q₁, t₁⟩
  · rcases r₂ with _ | ⟨q₂, t₂⟩
    · cases hf : fs.parseField (trimSpaces p₁) with
      | none =>
        rw [Parse_one_none h₁ hs₁ hf, Parse_one_none h₂ hs₂ (by rw [← hp]; exact hf)]
        exact ⟨rfl, rfl⟩
      | some f =>
        rw [Parse_one_some h₁ hs₁ hf, Parse_one_some h₂ hs₂ (by rw [← hp]; exact hf)]
        exact ⟨rfl, rfl⟩
    · simp only [List.length_nil, List.length_cons] at hlen
      omega
  rcases r₂ with _ | ⟨q₂, t₂⟩
  · simp only [List.length_nil, List.length_cons] at hlen
    omega
  simp only [List.map_cons, List.cons.injEq] at h
  obtain ⟨hq, h⟩ := h
  rcases t₁ with _ | ⟨a₁, u₁⟩
  · rcases t₂ with _ | ⟨a₂, u₂⟩
    · cases hf : fs.parseField (trimSpaces p₁) with
      | none =>
        rw [Parse_two_field_none h₁ hs₁ hf, Parse_two_field_none h₂ hs₂ (by rw [← hp]; exact hf)]
        exact ⟨rfl, rfl⟩
      | some f =>
        cases hd : parseDirection (trimSpaces q₁) with
        | none =>
          rw [Parse_two_dir_none h₁ hs₁ hf hd,
            Parse_two_dir_none h₂ hs₂ (by rw [← hp]; exact hf) (by rw [← hq]; exact hd)]
          exact ⟨rfl, rfl⟩
        | some dir =>
          rw [Parse_two_some h₁ hs₁ hf hd,
            Parse_two_some h₂ hs₂ (by rw [← hp]; exact hf) (by rw [← hq]; exact hd)]
          exact ⟨rfl, rfl⟩
    · simp only [List.length_nil, List.length_cons] at hlen
      omega
  rcases t₂ with _ | ⟨a₂, u₂⟩
  · simp only [List.length_nil, List.length_cons] at hlen
    omega
  rw [Parse_many h₁ hs₁, Parse_many h₂ hs₂]
  exact ⟨rfl, rfl⟩

/-- Claim C7, witness: the spec's own example — `" name , DESC "` behaves like
`"name,DESC"` (here both succeed, so both components agree). -/
theorem parse_space_insensitive_witness :
    ((Parse " name , DESC " (NewFieldSet [⟨"name", "st"⟩]) zeroBy).1
        = (Parse "name,DESC" (NewFieldSet [⟨"name", "st"⟩]) zeroBy).1) ∧
    (Option.map FieldsError.err (Parse " name , DESC " (NewFieldSet [⟨"name", "st"⟩]) zeroBy).2
        = Option.map FieldsError.err
            (Parse "name,DESC" (NewFieldSet [⟨"name", "st"⟩]) zeroBy).2) :=
  parse_space_insensitive (NewFieldSet [⟨"name", "st"⟩]) zeroBy " name , DESC " "name,DESC"
    (by decide) (by decide) (by decide)

/-- Claim C8, counterexample: a one-token directive equal to a public name
present in the FieldSet does not always succeed. With public name `" x"` the
parser trims the token to `"x"` before the lookup, which then fails; and with
public name `""` the directive equal to it is the empty string, for which
`Parse` returns the default instead of that field with `ASC`. -/
theorem parse_single_field_cex :
    (((NewFieldSet [⟨" x", "s"⟩]).parseField " x" = some ⟨" x", "s"⟩) ∧
      (',' ∉ (" x" : String).data) ∧
      Parse " x" (NewFieldSet [⟨" x", "s"⟩]) zeroBy
        = (zeroBy, some (NewFieldsError " x" "parsing fields"))) ∧
    (((NewFieldSet [⟨"", "s"⟩]).parseField "" = some ⟨"", "s"⟩) ∧
      Parse "" (NewFieldSet [⟨"", "s"⟩]) (NewBy ⟨"d", "ds"⟩ DESC)
        = (NewBy ⟨"d", "ds"⟩ DESC, none)) := by
  refine ⟨⟨by decide, by decide, by decide⟩, by decide, by decide⟩

/-- Claim C8, amended: for every FieldSet and default, parsing a non-empty
one-token directive (no comma) equal to a public name present in the FieldSet
that carries no leading or trailing space characters succeeds with that Field
paired with the ascending direction. -/
theorem parse_single_field_asc (fs : FieldSet) (defaultOrder : By) (p : String) (f : Field)
    (hv : p ≠ "") (hnc : ',' ∉ p.data) (ht : trimSpaces p = p)
    (hp : fs.parseField p = some f) :
    Parse p fs defaultOrder = (NewBy f ASC, none) := by
  refine Parse_one_some hv (splitOnComma_of_not_mem hnc) ?_
  rw [ht]
  exact hp

/-- Claim C8, witness: the directive `"name"` parses to that field with `ASC`. -/
theorem parse_single_field_asc_witness :
    Parse "name" (NewFieldSet [⟨"name", "st"⟩]) zeroBy
      = (NewBy ⟨"name", "st"⟩ ASC, none) :=
  parse_single_field_asc (NewFieldSet [⟨"name", "st"⟩]) zeroBy "name" ⟨"name", "st"⟩
    (by decide) (by decide) (by decide) (by decide)

/-- Claim C9: when `NewFieldSet` is given a list containing several Fields with
the same public name, the last one wins: writing the list as
`l₁ ++ f :: l₂` where no field of `l₂` shares `f`'s name, looking up `f`'s
name returns exactly `f`; and every field of the list leaves its public name
present in the set. -/
theorem newFieldSet_last_wins (l₁ l₂ : List Field) (f : Field)
    (h₂ : ∀ g ∈ l₂, g.name ≠ f.name) :
    ((NewFieldSet (l₁ ++ f :: l₂)).fields f.name = some f) ∧
    (∀ g ∈ l₁ ++ f :: l₂, ((NewFieldSet (l₁ ++ f :: l₂)).fields g.name).isSome) := by
  constructor
  · show ((l₁ ++ f :: l₂).foldl mapInsert (fun _ => none)) f.name = some f
    rw [foldl_mapInsert]
    have hfind : (l₁ ++ f :: l₂).reverse.find? (fun g => g.name == f.name) = some f := by
      rw [List.reverse_append, List.reverse_cons, List.find?_append, List.find?_append]
      have hnone : l₂.reverse.find? (fun g => g.name == f.name) = none := by
        rw [List.find?_eq_none]
        intro g hg
        simp [h₂ g (List.mem_reverse.mp hg)]
      rw [hnone]
      simp
    rw [hfind]
    rfl
  · intro g hg
    show (((l₁ ++ f :: l₂).foldl mapInsert (fun _ => none)) g.name).isSome
    rw [foldl_mapInsert]
    simp only [Option.or_none]
    rw [List.find?_isSome]
    exact ⟨g, List.mem_reverse.mpr hg, by simp⟩

/-- Claim C9, witness: in `[⟨"a","s1"⟩, ⟨"b","s2"⟩, ⟨"a","s3"⟩]` the name
`"a"` resolves to the last field `⟨"a","s3"⟩`, and `"b"` is present. -/
theorem newFieldSet_last_wins_witness :
    ((NewFieldSet [⟨"a", "s1"⟩, ⟨"b", "s2"⟩, ⟨"a", "s3"⟩]).fields "a" = some ⟨"a", "s3"⟩) ∧
    ((NewFieldSet [⟨"a", "s1"⟩, ⟨"b", "s2"⟩, ⟨"a", "s3"⟩]).fields "b").isSome :=
  ⟨(newFieldSet_last_wins [⟨"a", "s1"⟩, ⟨"b", "s2"⟩] [] ⟨"a", "s3"⟩ (by decide)).1,
    (newFieldSet_last_wins [⟨"a", "s1"⟩, ⟨"b", "s2"⟩] [] ⟨"a", "s3"⟩ (by decide)).2
      ⟨"b", "s2"⟩ (by decide)⟩

/-- Claim C10: whenever `Parse` returns an error, the `By` component of its
result is the zero value — empty public and storage names, empty direction
name — never the default OrderBy or a partially parsed value. -/
theorem parse_error_returns_zeroBy (v : String) (fs : FieldSet) (defaultOrder : By)
    (e : FieldsError) (h : (Parse v fs defaultOrder).2 = some e) :
    (Parse v fs defaultOrder).1 = zeroBy := by
  by_cases hv : v = ""
  · rw [hv] at h
    simp [Parse] at h
  · rcases hs : splitOnComma v with _ | ⟨p, _ | ⟨q, _ | ⟨r, rest⟩⟩⟩
    · exact absurd hs (splitOnComma_ne_nil v)
    · cases hf : fs.parseField (trimSpaces p) with
      | none => rw [Parse_one_none hv hs hf]
      | some f =>
        rw [Parse_one_some hv hs hf] at h
        simp at h
    · cases hf : fs.parseField (trimSpaces p) with
      | none => rw [Parse_two_field_none hv hs hf]
      | some f =>
        cases hd : parseDirection (trimSpaces q) with
        | none => rw [Parse_two_dir_none hv hs hf hd]
        | some dir =>
          rw [Parse_two_some hv hs hf hd] at h
          simp at h
    · rw [Parse_many hv hs]

/-- Claim C10, witness: the failing parse of `"a,b,c"` returns the zero `By`
even though the default is a non-zero OrderBy. -/
theorem parse_error_returns_zeroBy_witness :
    (Parse "a,b,c" (NewFieldSet []) (NewBy ⟨"d", "ds"⟩ DESC)).1 = zeroBy :=
  parse_error_returns_zeroBy "a,b,c" (NewFieldSet []) (NewBy ⟨"d", "ds"⟩ DESC)
    (NewFieldsError "a,b,c" "unknown order field") (by decide)

end Order
